import Mathlib

/-!
Verification of the canoe-mapping core (src/map_utils.py): coordinate
transforms, figure-dimension computation, geometry flattening, style
resolution and the scale-bar quantizer. Python floats are modelled as
rationals (exact arithmetic); the pyproj Web-Mercator projection is
modelled over the reals. Fallible Python code (code that can raise) is
modelled with `Except PyError`.
-/

namespace CanoeMapping

/-- Python exceptions that the modelled code can raise. -/
inductive PyError
  | zeroDivisionError
  | keyError
  | valueError
  deriving DecidableEq, Repr

/-- `xy_to_fig` from map_utils.py: converts EPSG3857 planar coordinates to
figure coordinates. Python evaluates `(x - x_min)/(x_max - x_min)` first,
raising `ZeroDivisionError` when `x_max = x_min`, then the y quotient. -/
def xy_to_fig (x y x_min x_max y_min y_max : ℚ) : Except PyError (ℚ × ℚ) :=
  if x_max - x_min = 0 then .error .zeroDivisionError
  else if y_max - y_min = 0 then .error .zeroDivisionError
  else .ok ((x - x_min) / (x_max - x_min), (y - y_min) / (y_max - y_min))

/-- `fig_to_xy` from map_utils.py: converts figure coordinates back to
EPSG3857 planar coordinates. Total: no division occurs. -/
def fig_to_xy (x_fig y_fig x_min x_max y_min y_max : ℚ) : ℚ × ℚ :=
  (x_fig * (x_max - x_min) + x_min, y_fig * (y_max - y_min) + y_min)

/-- `calculate_plot_dimensions` from map_utils.py. The `dx >= dy` branch
divides by `dx`, the other branch divides by `dy`; a zero divisor raises
`ZeroDivisionError` in Python. No validation of signs is performed. -/
def calculate_plot_dimensions (plot_max_dim dx dy : ℚ) : Except PyError (ℚ × ℚ) :=
  if dx ≥ dy then
    if dx = 0 then .error .zeroDivisionError
    else .ok (plot_max_dim, plot_max_dim * dy / dx)
  else
    if dy = 0 then .error .zeroDivisionError
    else .ok (plot_max_dim * dx / dy, plot_max_dim)

/-- The hard-coded candidate list `scale_dimesions` of map_utils.py
(name kept with the source's spelling). -/
def scale_dimesions : List ℚ := [0.1, 0.2, 0.5, 1, 2, 5, 10, 20, 50, 100, 200, 500]

/-- The `for ... break` loop of `get_scale_dimesion_km`: walk the list,
return the first element `≤ m` (the `break`); when no element satisfies
the test the loop variable retains the last element, which is returned.
The `[]` case models the Python `NameError` on an empty list and is never
reached: the function is only applied to the nonempty reversed candidate
list. -/
def scanScaleDimesions (m : ℚ) : List ℚ → ℚ
  | [] => 0
  | [d] => d
  | d :: rest => if d ≤ m then d else scanScaleDimesions m rest

/-- `get_scale_dimesion_km` from map_utils.py: scans the candidate list in
reverse (largest to smallest) for the first value `≤ plot_width_km *
max_width_pct`; falls through to the smallest value `0.1`. -/
def get_scale_dimesion_km (plot_width_km max_width_pct : ℚ) : ℚ :=
  scanScaleDimesions (plot_width_km * max_width_pct) scale_dimesions.reverse

/-- A planar coordinate pair, as produced by shapely `coords`. -/
abbrev Coord := ℚ × ℚ

/-- One drawable contour: an ordered coordinate list. -/
abbrev Ring := List Coord

/-- Shapely geometries as dispatched on by `extract_coords` via `geom_type`.
A shapely `Polygon` is an exterior ring plus a list of interior rings; the
members of a `MultiPolygon` are always polygons (a shapely invariant), so
they are carried as exterior/interiors pairs. `MultiLineString` and
`MultiPoint` stand for the geometry kinds outside the supported set. -/
inductive Geometry
  | point (coords : Ring)
  | lineString (coords : Ring)
  | polygon (exterior : Ring) (interiors : List Ring)
  | multiPolygon (polygons : List (Ring × List Ring))
  | multiLineString (lines : List Ring)
  | multiPoint (points : List Ring)
  deriving DecidableEq, Repr

/-- `extract_polygon_coords` from map_utils.py: for a `Polygon` the exterior
ring followed by each interior ring; any other geometry kind raises
`ValueError` ("Unhandled geometry type"). -/
def extract_polygon_coords : Geometry → Except PyError (List Ring)
  | .polygon exterior interiors => .ok (exterior :: interiors)
  | _ => .error .valueError

/-- The `for polygon in polygons` loop of `extract_coords`: extends the
accumulated ring list with each member polygon's rings in member order,
propagating any exception from `extract_polygon_coords`. -/
def extract_coords.mpLoop : List (Ring × List Ring) → List Ring → Except PyError (List Ring)
  | [], coords => .ok coords
  | p :: ps, coords =>
      match extract_polygon_coords (.polygon p.1 p.2) with
      | .error e => .error e
      | .ok pcs => extract_coords.mpLoop ps (coords ++ pcs)

/-- `extract_coords` from map_utils.py: starts from an empty list, appends
the point/line coordinate list, extends with the polygon rings, or extends
with each member polygon's rings in order; an unmatched geometry kind falls
through all branches and the empty list is returned. -/
def extract_coords : Geometry → Except PyError (List Ring)
  | .point cs => .ok [cs]
  | .lineString cs => .ok [cs]
  | .polygon exterior interiors =>
      extract_polygon_coords (.polygon exterior interiors)
  | .multiPolygon polygons => extract_coords.mpLoop polygons []
  | _ => .ok []

/-- A matplotlib style: keyword arguments, modelled as an ordered mapping
from argument name to value. The empty style is the empty mapping. -/
abbrev Style := List (String × String)

/-- An ordered string-keyed mapping, modelling a Python dict (insertion
order preserved, keys unique). -/
abbrev Dict (β : Type) := List (String × β)

/-- Python dict subscript `d[k]` / membership `k in d`: the value at the
first occurrence of the key, `none` when absent. -/
def dictLookup {β : Type} (d : Dict β) (k : String) : Option β :=
  (d.find? (fun p => p.1 == k)).map Prod.snd

/-- Loop body accumulator of `get_style`: walks the element's tag pairs in
order, keeping the most recent resolved style; a tag whose key is in
`tag_styles` and whose value is under that key indexes `styles` with the
mapped style name — a subscript that raises `KeyError` when the name is
absent. -/
def get_style.go (tag_styles : Dict (Dict String)) (styles : Dict Style) :
    List (String × String) → Style → Except PyError Style
  | [], style => .ok style
  | (key, value) :: rest, style =>
      match dictLookup tag_styles key with
      | none => get_style.go tag_styles styles rest style
      | some valueMap =>
          match dictLookup valueMap value with
          | none => get_style.go tag_styles styles rest style
          | some styleName =>
              match dictLookup styles styleName with
              | none => .error .keyError
              | some s => get_style.go tag_styles styles rest s

/-- `get_style` from map_utils.py: starts from the empty style `{}` and
iterates the element's tags. -/
def get_style (element : List (String × String)) (tag_styles : Dict (Dict String))
    (styles : Dict Style) : Except PyError Style :=
  get_style.go tag_styles styles element []

/-- The mapped style name of one tag pair, when its key is in `tag_styles`
and its value is under that key. -/
def tagStyleName (tag_styles : Dict (Dict String)) (kv : String × String) :
    Option String :=
  match dictLookup tag_styles kv.1 with
  | none => none
  | some valueMap => dictLookup valueMap kv.2

/-- The names of the element's matching tags, in iteration order. -/
def matchNames (tag_styles : Dict (Dict String)) (element : List (String × String)) :
    List String :=
  element.filterMap (tagStyleName tag_styles)

/-- Semi-major axis (meters) of the EPSG:3857 spherical web-Mercator
projection that `pyproj.Transformer.from_crs(4326, 3857)` applies. -/
noncomputable def webMercatorRadius : ℝ := 6378137

/-- `lonlat_to_xy` from map_utils.py delegates to pyproj's EPSG:4326 →
EPSG:3857 transform; modelled here by the spherical web-Mercator formulas
that transform implements: `x = R·λ`, `y = R·ln(tan(π/4 + φ/2))` with
longitude and latitude converted from degrees to radians. -/
noncomputable def lonlat_to_xy (lon lat : ℝ) : ℝ × ℝ :=
  (webMercatorRadius * (lon * Real.pi / 180),
   webMercatorRadius * Real.log (Real.tan (Real.pi / 4 + lat * Real.pi / 360)))

/-- `xy_to_lonlat` from map_utils.py delegates to pyproj's EPSG:3857 →
EPSG:4326 transform; modelled by the inverse spherical web-Mercator
formulas: `λ = x/R`, `φ = 2·atan(exp(y/R)) − π/2`, converted to degrees. -/
noncomputable def xy_to_lonlat (x y : ℝ) : ℝ × ℝ :=
  (x / webMercatorRadius * 180 / Real.pi,
   (2 * Real.arctan (Real.exp (y / webMercatorRadius)) - Real.pi / 2) * 180 / Real.pi)

/-! ## Theorems -/

/-- The multi-polygon loop of `extract_coords` never fails and concatenates
each member polygon's rings onto the accumulator. -/
theorem mpLoop_eq (polygons : List (Ring × List Ring)) (acc : List Ring) :
    extract_coords.mpLoop polygons acc
      = .ok (acc ++ (polygons.map (fun p => p.1 :: p.2)).flatten) := by
  induction polygons generalizing acc with
  | nil => simp [extract_coords.mpLoop]
  | cons p ps ih =>
      rw [extract_coords.mpLoop]
      simp only [extract_polygon_coords, ih, List.map_cons, List.flatten_cons, List.append_assoc]

/-- C3: `extract_coords` yields one ring for a point or line (its own
coordinate list), the exterior ring followed by the interior rings for a
polygon, and the concatenation of each member polygon's rings, in member
order, for a multi-polygon. -/
theorem C3_extract_coords :
    (∀ cs : Ring, extract_coords (.point cs) = .ok [cs]) ∧
    (∀ cs : Ring, extract_coords (.lineString cs) = .ok [cs]) ∧
    (∀ (exterior : Ring) (interiors : List Ring),
      extract_coords (.polygon exterior interiors) = .ok (exterior :: interiors)) ∧
    (∀ polygons : List (Ring × List Ring),
      extract_coords (.multiPolygon polygons)
        = .ok ((polygons.map (fun p => p.1 :: p.2)).flatten)) := by
  refine ⟨fun cs => rfl, fun cs => rfl, fun e i => rfl, fun polygons => ?_⟩
  rw [extract_coords, mpLoop_eq]
  rfl

/-- C4: on a non-degenerate extent, `fig_to_xy` inverts `xy_to_fig`
exactly: converting a planar point to figure coordinates and back returns
the original point. -/
theorem C4_fig_roundtrip (x y x_min x_max y_min y_max : ℚ)
    (hx : x_min < x_max) (hy : y_min < y_max) :
    ∃ x_fig y_fig,
      xy_to_fig x y x_min x_max y_min y_max = .ok (x_fig, y_fig) ∧
      fig_to_xy x_fig y_fig x_min x_max y_min y_max = (x, y) := by
  have hx0 : x_max - x_min ≠ 0 := by linarith
  have hy0 : y_max - y_min ≠ 0 := by linarith
  refine ⟨(x - x_min) / (x_max - x_min), (y - y_min) / (y_max - y_min), ?_, ?_⟩
  · rw [xy_to_fig, if_neg hx0, if_neg hy0]
  · rw [fig_to_xy]
    field_simp

/-- Witness for C4 at the point (3, 4) in the extent [0,2]×[0,2]. -/
theorem C4_witness :
    (0 : ℚ) < 2 ∧
    ∃ x_fig y_fig,
      xy_to_fig 3 4 0 2 0 2 = .ok (x_fig, y_fig) ∧
      fig_to_xy x_fig y_fig 0 2 0 2 = (3, 4) :=
  ⟨by norm_num, C4_fig_roundtrip 3 4 0 2 0 2 (by norm_num) (by norm_num)⟩

/-- C7: `xy_to_fig` fails (Python's `ZeroDivisionError`, the spec's
`DegenerateExtentError`) whenever the extent is degenerate, i.e.
`x_max = x_min` or `y_max = y_min`. -/
theorem C7_xy_to_fig_degenerate (x y x_min x_max y_min y_max : ℚ)
    (h : x_max = x_min ∨ y_max = y_min) :
    xy_to_fig x y x_min x_max y_min y_max = .error .zeroDivisionError := by
  rcases h with h | h
  · rw [xy_to_fig, if_pos (by rw [h, sub_self])]
  · rw [xy_to_fig]
    by_cases hx : x_max - x_min = 0
    · rw [if_pos hx]
    · rw [if_neg hx, if_pos (by rw [h, sub_self])]

/-- Witness for C7 on the extent with `y_max = y_min = 5`. -/
theorem C7_witness :
    ((5 : ℚ) = 5 ∨ (5 : ℚ) = 5) ∧
    xy_to_fig 1 2 0 3 5 5 = .error .zeroDivisionError :=
  ⟨Or.inl rfl, C7_xy_to_fig_degenerate 1 2 0 3 5 5 (Or.inr rfl)⟩

/-- C6 counterexample: on a multi-line geometry — a kind outside the
supported set — `extract_coords` does not fail: it falls through every
branch and returns the empty ring list. -/
theorem C6_counterexample :
    extract_coords (.multiLineString [[(0, 0), (1, 1)]]) = .ok [] := rfl

/-- C6 (amended): for a geometry whose kind is outside {point, line,
polygon, multi-polygon}, `extract_coords` does not raise; it returns an
empty list of rings. -/
theorem C6_unsupported_returns_empty :
    (∀ lines, extract_coords (.multiLineString lines) = .ok []) ∧
    (∀ points, extract_coords (.multiPoint points) = .ok []) :=
  ⟨fun _ => rfl, fun _ => rfl⟩

/-- C8 counterexample: with `dx = -2 ≤ 0` and `dy = -1 ≤ 0`,
`calculate_plot_dimensions` does not fail — it returns `(20, 10)`. -/
theorem C8_counterexample :
    ((-2 : ℚ) ≤ 0 ∧ (-1 : ℚ) ≤ 0) ∧
    calculate_plot_dimensions 10 (-2) (-1) = .ok (20, 10) := by
  refine ⟨⟨by norm_num, by norm_num⟩, ?_⟩
  norm_num [calculate_plot_dimensions]

/-- C8 (amended): `calculate_plot_dimensions` performs no input
validation; it fails (Python's `ZeroDivisionError`) exactly when its
divisor is zero, i.e. when `dx = 0` with `dy ≤ 0`, or `dy = 0` with
`dx < 0`; all other inputs return a pair. -/
theorem C8_failure_characterization (plot_max_dim dx dy : ℚ) :
    calculate_plot_dimensions plot_max_dim dx dy = .error .zeroDivisionError
      ↔ (dx = 0 ∧ dy ≤ 0) ∨ (dy = 0 ∧ dx < 0) := by
  rw [calculate_plot_dimensions]
  split_ifs with hge h0 h0
  · exact ⟨fun _ => Or.inl ⟨h0, by linarith⟩, fun _ => rfl⟩
  · constructor
    · intro h
      exact absurd h (by simp)
    · rintro (⟨h, _⟩ | ⟨h, h'⟩)
      · exact absurd h h0
      · exact absurd hge (by simp only [ge_iff_le, not_le]; linarith)
  · exact ⟨fun _ => Or.inr ⟨h0, by simp only [ge_iff_le, not_le] at hge; linarith⟩,
      fun _ => rfl⟩
  · constructor
    · intro h
      exact absurd h (by simp)
    · rintro (⟨h, h'⟩ | ⟨h, _⟩)
      · exact absurd hge (by simp only [ge_iff_le, not_le]; linarith)
      · exact absurd h h0

/-- C5 counterexample: with a negative `plot_max_dim = -10` the claim's
invariant `max(width, height) = maxDim` fails: the result is `(-10, -5)`
and its maximum is `-5`. -/
theorem C5_counterexample :
    calculate_plot_dimensions (-10) 2 1 = .ok (-10, -5) ∧
    max (-10 : ℚ) (-5) ≠ -10 := by
  constructor
  · norm_num [calculate_plot_dimensions]
  · norm_num

/-- C5 (amended): for positive `plot_max_dim` and positive `dx`, `dy`,
`calculate_plot_dimensions` returns a pair whose width/height ratio is
`dx/dy` and whose larger component is `plot_max_dim`; in particular it
maps `(10, 2, 1)` to `(10, 5)` and `(10, 1, 2)` to `(5, 10)`. -/
theorem C5_calculate_plot_dimensions :
    (∀ plot_max_dim dx dy : ℚ, 0 < plot_max_dim → 0 < dx → 0 < dy →
      ∃ w h, calculate_plot_dimensions plot_max_dim dx dy = .ok (w, h) ∧
        w / h = dx / dy ∧ max w h = plot_max_dim) ∧
    calculate_plot_dimensions 10 2 1 = .ok (10, 5) ∧
    calculate_plot_dimensions 10 1 2 = .ok (5, 10) := by
  refine ⟨fun m dx dy hm hdx hdy => ?_, by norm_num [calculate_plot_dimensions],
    by norm_num [calculate_plot_dimensions]⟩
  have hm0 : m ≠ 0 := ne_of_gt hm
  have hdx0 : dx ≠ 0 := ne_of_gt hdx
  have hdy0 : dy ≠ 0 := ne_of_gt hdy
  by_cases hge : dx ≥ dy
  · refine ⟨m, m * dy / dx, ?_, ?_, ?_⟩
    · rw [calculate_plot_dimensions, if_pos hge, if_neg hdx0]
    · field_simp
      ring
    · refine max_eq_left ?_
      rw [div_le_iff₀ hdx]
      nlinarith
  · refine ⟨m * dx / dy, m, ?_, ?_, ?_⟩
    · rw [calculate_plot_dimensions, if_neg hge, if_neg hdy0]
    · field_simp
      ring
    · refine max_eq_right ?_
      rw [div_le_iff₀ hdy]
      push_neg at hge
      nlinarith

/-- Witness for C5 (amended) at `plot_max_dim = 10`, `dx = 2`, `dy = 1`. -/
theorem C5_witness :
    (0 : ℚ) < 10 ∧
    ∃ w h, calculate_plot_dimensions 10 2 1 = .ok (w, h) ∧
      w / h = 2 / 1 ∧ max w h = 10 :=
  ⟨by norm_num, C5_calculate_plot_dimensions.1 10 2 1 (by norm_num) (by norm_num) (by norm_num)⟩

/-- The scan always returns an element of the (nonempty) scanned list. -/
theorem scanScale_mem (m : ℚ) : ∀ l : List ℚ, l ≠ [] → scanScaleDimesions m l ∈ l := by
  intro l
  induction l with
  | nil => exact fun h => absurd rfl h
  | cons d rest ih =>
      intro _
      cases rest with
      | nil => simp [scanScaleDimesions]
      | cons e rest' =>
          by_cases h : d ≤ m
          · simp [scanScaleDimesions, h]
          · simp only [scanScaleDimesions, if_neg h]
            exact List.mem_cons_of_mem d (ih (by simp))

/-- When some scanned element is `≤ m`, the scan's result is `≤ m`. -/
theorem scanScale_le (m : ℚ) : ∀ l : List ℚ, (∃ d ∈ l, d ≤ m) → scanScaleDimesions m l ≤ m := by
  intro l
  induction l with
  | nil =>
      rintro ⟨d, hd, -⟩
      exact absurd hd (List.not_mem_nil d)
  | cons d rest ih =>
      rintro ⟨d', hd', hdm⟩
      cases rest with
      | nil =>
          simp only [List.mem_singleton] at hd'
          subst hd'
          simpa [scanScaleDimesions] using hdm
      | cons e rest' =>
          by_cases h : d ≤ m
          · simp [scanScaleDimesions, h]
          · rcases List.mem_cons.mp hd' with rfl | hmem
            · exact absurd hdm h
            · simp only [scanScaleDimesions, if_neg h]
              exact ih ⟨d', hmem, hdm⟩

/-- On a descending list, the scan's result dominates every scanned
element that is `≤ m`: it is the largest element `≤ m`. -/
theorem scanScale_maximal (m : ℚ) :
    ∀ l : List ℚ, l.Pairwise (· ≥ ·) →
      ∀ d' ∈ l, d' ≤ m → d' ≤ scanScaleDimesions m l := by
  intro l
  induction l with
  | nil => exact fun _ d' hd' => absurd hd' (List.not_mem_nil d')
  | cons d rest ih =>
      intro hp d' hd' hdm
      have hsorted := List.pairwise_cons.mp hp
      cases rest with
      | nil =>
          simp only [List.mem_singleton] at hd'
          subst hd'
          simp [scanScaleDimesions]
      | cons e rest' =>
          by_cases h : d ≤ m
          · simp only [scanScaleDimesions, if_pos h]
            rcases List.mem_cons.mp hd' with rfl | hmem
            · exact le_refl d'
            · exact hsorted.1 d' hmem
          · simp only [scanScaleDimesions, if_neg h]
            rcases List.mem_cons.mp hd' with rfl | hmem
            · exact absurd hdm h
            · exact ih hsorted.2 d' hmem hdm

/-- When no scanned element is `≤ m`, the loop falls through and the loop
variable retains the last element. -/
theorem scanScale_fallthrough (m : ℚ) :
    ∀ (l : List ℚ) (hl : l ≠ []), (∀ d ∈ l, m < d) →
      scanScaleDimesions m l = l.getLast hl := by
  intro l
  induction l with
  | nil => exact fun hl => absurd rfl hl
  | cons d rest ih =>
      intro hl hall
      cases rest with
      | nil => simp [scanScaleDimesions, List.getLast]
      | cons e rest' =>
          have h : ¬d ≤ m := not_le.mpr (hall d (List.mem_cons_self d _))
          simp only [scanScaleDimesions, if_neg h]
          rw [ih (by simp) (fun x hx => hall x (List.mem_cons_of_mem d hx))]
          exact (List.getLast_cons (by simp)).symm

/-- C1: `get_scale_dimesion_km` returns a member of the candidate set;
when some member is `≤ plot_width_km * max_width_pct` it returns the
largest such member (the first one of the scan from largest to smallest),
and when the product is below `0.1` it returns `0.1` (the loop falls
through without raising); in particular it maps `(100, 0.15)` to `10`
and `(1, 0.15)` to `0.1`. -/
theorem C1_get_scale_dimesion_km :
    (∀ plot_width_km max_width_pct : ℚ,
      get_scale_dimesion_km plot_width_km max_width_pct ∈ scale_dimesions ∧
      (0.1 ≤ plot_width_km * max_width_pct →
        get_scale_dimesion_km plot_width_km max_width_pct
            ≤ plot_width_km * max_width_pct ∧
        ∀ d ∈ scale_dimesions, d ≤ plot_width_km * max_width_pct →
          d ≤ get_scale_dimesion_km plot_width_km max_width_pct) ∧
      (plot_width_km * max_width_pct < 0.1 →
        get_scale_dimesion_km plot_width_km max_width_pct = 0.1)) ∧
    get_scale_dimesion_km 100 0.15 = 10 ∧
    get_scale_dimesion_km 1 0.15 = 0.1 := by
  refine ⟨fun w p => ?_,
    by norm_num [get_scale_dimesion_km, scale_dimesions, scanScaleDimesions],
    by norm_num [get_scale_dimesion_km, scale_dimesions, scanScaleDimesions]⟩
  have hne : scale_dimesions.reverse ≠ [] := by simp [scale_dimesions]
  have hsorted : scale_dimesions.reverse.Pairwise (· ≥ ·) := by
    rw [show scale_dimesions.reverse
        = [500, 200, 100, 50, 20, 10, 5, 2, 1, 0.5, 0.2, 0.1] from rfl]
    norm_num [List.pairwise_cons]
  have hlow : ∀ d ∈ scale_dimesions, (0.1 : ℚ) ≤ d := by
    intro d hd
    simp only [scale_dimesions, List.mem_cons, List.not_mem_nil, or_false] at hd
    rcases hd with rfl | rfl | rfl | rfl | rfl | rfl | rfl | rfl | rfl | rfl | rfl | rfl <;>
      norm_num
  refine ⟨?_, fun hge => ⟨?_, fun d hd hdm => ?_⟩, fun hlt => ?_⟩
  · exact List.mem_reverse.mp (scanScale_mem (w * p) _ hne)
  · refine scanScale_le _ _ ⟨0.1, ?_, hge⟩
    simp [scale_dimesions]
  · exact scanScale_maximal _ _ hsorted d (List.mem_reverse.mpr hd) hdm
  · rw [get_scale_dimesion_km,
      scanScale_fallthrough _ _ hne
        (fun d hd => lt_of_lt_of_le hlt (hlow d (List.mem_reverse.mp hd)))]
    rfl

/-- Witness for C1, applying it at `(100, 0.15)` where the product `15`
is above `0.1`, and at `(1, 0.05)` where the product `0.05` is below. -/
theorem C1_witness :
    ((0.1 : ℚ) ≤ 100 * 0.15 ∧
      get_scale_dimesion_km 100 0.15 ≤ 100 * 0.15 ∧
      ∀ d ∈ scale_dimesions, d ≤ 100 * 0.15 → d ≤ get_scale_dimesion_km 100 0.15) ∧
    ((1 : ℚ) * 0.05 < 0.1 ∧ get_scale_dimesion_km 1 0.05 = 0.1) :=
  ⟨⟨by norm_num,
    (((C1_get_scale_dimesion_km.1 100 0.15).2.1 (by norm_num)).1),
    (((C1_get_scale_dimesion_km.1 100 0.15).2.1 (by norm_num)).2)⟩,
   ⟨by norm_num, (C1_get_scale_dimesion_km.1 1 0.05).2.2 (by norm_num)⟩⟩

/-- When every matching tag's mapped style name has an entry in `styles`,
the `get_style` loop returns the entry of the last matching tag's name, or
the accumulator when no tag matches. -/
theorem go_last_match (tag_styles : Dict (Dict String)) (styles : Dict Style) :
    ∀ (element : List (String × String)) (acc : Style),
      (∀ n ∈ matchNames tag_styles element, (dictLookup styles n).isSome) →
      get_style.go tag_styles styles element acc
        = .ok ((((matchNames tag_styles element).getLast?).bind
            (dictLookup styles)).getD acc) := by
  intro element
  induction element with
  | nil =>
      intro acc _
      simp [get_style.go, matchNames]
  | cons kv rest ih =>
      intro acc H
      obtain ⟨key, value⟩ := kv
      cases hk : dictLookup tag_styles key with
      | none =>
          have hmn : matchNames tag_styles ((key, value) :: rest)
              = matchNames tag_styles rest := by
            simp [matchNames, List.filterMap_cons, tagStyleName, hk]
          simp only [get_style.go, hk]
          rw [hmn]
          exact ih acc (fun x hx => H x (by rw [hmn]; exact hx))
      | some valueMap =>
          cases hv : dictLookup valueMap value with
          | none =>
              have hmn : matchNames tag_styles ((key, value) :: rest)
                  = matchNames tag_styles rest := by
                simp [matchNames, List.filterMap_cons, tagStyleName, hk, hv]
              simp only [get_style.go, hk, hv]
              rw [hmn]
              exact ih acc (fun x hx => H x (by rw [hmn]; exact hx))
          | some n =>
              have hmn : matchNames tag_styles ((key, value) :: rest)
                  = n :: matchNames tag_styles rest := by
                simp [matchNames, List.filterMap_cons, tagStyleName, hk, hv]
              have hnsome : (dictLookup styles n).isSome :=
                H n (by rw [hmn]; exact List.mem_cons_self _ _)
              obtain ⟨s, hs⟩ := Option.isSome_iff_exists.mp hnsome
              have Hrest : ∀ x ∈ matchNames tag_styles rest, (dictLookup styles x).isSome :=
                fun x hx => H x (by rw [hmn]; exact List.mem_cons_of_mem _ hx)
              simp only [get_style.go, hk, hv, hs]
              rw [ih s Hrest, hmn]
              cases hM : matchNames tag_styles rest with
              | nil => simp [hs]
              | cons mhd mtl =>
                  rw [List.getLast?_cons_cons]
                  have hx : (mhd :: mtl).getLast? = some ((mhd :: mtl).getLast (by simp)) :=
                    List.getLast?_eq_getLast_of_ne_nil (by simp)
                  have hxmem : (mhd :: mtl).getLast (by simp) ∈ matchNames tag_styles rest := by
                    rw [hM]
                    exact List.getLast_mem (by simp)
                  obtain ⟨sx, hsx⟩ := Option.isSome_iff_exists.mp (Hrest _ hxmem)
                  rw [hx]
                  simp [hsx]

/-- If some tag of the element matches with a style name absent from
`styles`, the `get_style` loop raises `KeyError` whatever the accumulator. -/
theorem go_keyError (tag_styles : Dict (Dict String)) (styles : Dict Style) :
    ∀ (element : List (String × String)) (acc : Style),
      (∃ kv ∈ element, ∃ n, tagStyleName tag_styles kv = some n ∧
        dictLookup styles n = none) →
      get_style.go tag_styles styles element acc = .error .keyError := by
  intro element
  induction element with
  | nil =>
      rintro acc ⟨kv, hkv, -⟩
      exact absurd hkv (List.not_mem_nil kv)
  | cons hd rest ih =>
      rintro acc ⟨kv, hkv, n, hn, hmiss⟩
      obtain ⟨key, value⟩ := hd
      cases hk : dictLookup tag_styles key with
      | none =>
          simp only [get_style.go, hk]
          refine ih acc ⟨kv, ?_, n, hn, hmiss⟩
          rcases List.mem_cons.mp hkv with rfl | hmem
          · exfalso
            simp [tagStyleName, hk] at hn
          · exact hmem
      | some valueMap =>
          cases hv : dictLookup valueMap value with
          | none =>
              simp only [get_style.go, hk, hv]
              refine ih acc ⟨kv, ?_, n, hn, hmiss⟩
              rcases List.mem_cons.mp hkv with rfl | hmem
              · exfalso
                simp [tagStyleName, hk, hv] at hn
              · exact hmem
          | some n' =>
              cases hs : dictLookup styles n' with
              | none => simp [get_style.go, hk, hv, hs]
              | some s =>
                  simp only [get_style.go, hk, hv, hs]
                  refine ih s ⟨kv, ?_, n, hn, hmiss⟩
                  rcases List.mem_cons.mp hkv with rfl | hmem
                  · exfalso
                    have hn' : tagStyleName tag_styles (key, value) = some n' := by
                      simp [tagStyleName, hk, hv]
                    rw [hn] at hn'
                    obtain rfl := Option.some_injective _ hn'
                    rw [hmiss] at hs
                    cases hs
                  · exact hmem

/-- Whenever the `get_style` loop returns a style, that style is either the
untouched accumulator (and then no tag matched) or the `styles` entry of
the last matching tag's name. -/
theorem go_ok_characterization (tag_styles : Dict (Dict String)) (styles : Dict Style) :
    ∀ (element : List (String × String)) (acc r : Style),
      get_style.go tag_styles styles element acc = .ok r →
      (matchNames tag_styles element = [] ∧ r = acc) ∨
      (∃ n, (matchNames tag_styles element).getLast? = some n ∧
        dictLookup styles n = some r) := by
  intro element
  induction element with
  | nil =>
      intro acc r h
      rw [get_style.go] at h
      exact Or.inl ⟨by simp [matchNames], (Except.ok.inj h).symm⟩
  | cons hd rest ih =>
      intro acc r h
      obtain ⟨key, value⟩ := hd
      cases hk : dictLookup tag_styles key with
      | none =>
          simp only [get_style.go, hk] at h
          have hmn : matchNames tag_styles ((key, value) :: rest)
              = matchNames tag_styles rest := by
            simp [matchNames, List.filterMap_cons, tagStyleName, hk]
          rcases ih acc r h with ⟨h1, h2⟩ | ⟨n, hn, hsn⟩
          · exact Or.inl ⟨by rw [hmn]; exact h1, h2⟩
          · exact Or.inr ⟨n, by rw [hmn]; exact hn, hsn⟩
      | some valueMap =>
          cases hv : dictLookup valueMap value with
          | none =>
              simp only [get_style.go, hk, hv] at h
              have hmn : matchNames tag_styles ((key, value) :: rest)
                  = matchNames tag_styles rest := by
                simp [matchNames, List.filterMap_cons, tagStyleName, hk, hv]
              rcases ih acc r h with ⟨h1, h2⟩ | ⟨n, hn, hsn⟩
              · exact Or.inl ⟨by rw [hmn]; exact h1, h2⟩
              · exact Or.inr ⟨n, by rw [hmn]; exact hn, hsn⟩
          | some n' =>
              have hmn : matchNames tag_styles ((key, value) :: rest)
                  = n' :: matchNames tag_styles rest := by
                simp [matchNames, List.filterMap_cons, tagStyleName, hk, hv]
              cases hs : dictLookup styles n' with
              | none => simp [get_style.go, hk, hv, hs] at h
              | some s =>
                  simp only [get_style.go, hk, hv, hs] at h
                  rcases ih s r h with ⟨h1, rfl⟩ | ⟨n, hn, hsn⟩
                  · refine Or.inr ⟨n', ?_, hs⟩
                    rw [hmn, h1]
                    rfl
                  · refine Or.inr ⟨n, ?_, hsn⟩
                    rw [hmn]
                    cases hM : matchNames tag_styles rest with
                    | nil =>
                        rw [hM] at hn
                        cases hn
                    | cons a b =>
                        rw [List.getLast?_cons_cons, ← hM]
                        exact hn

/-- C2 counterexample: the element's last matching tag maps to `s2`,
which is present in the style table with entry `color: blue`, yet
`get_style` raises `KeyError` — at the earlier matching tag whose name
`s1` is absent — instead of returning that entry. -/
theorem C2_counterexample :
    (matchNames [("a", [("x", "s1")]), ("b", [("y", "s2")])]
        [("a", "x"), ("b", "y")]).getLast? = some "s2" ∧
    dictLookup [("s2", [("color", "blue")])] "s2" = some [("color", "blue")] ∧
    get_style [("a", "x"), ("b", "y")] [("a", [("x", "s1")]), ("b", [("y", "s2")])]
        [("s2", [("color", "blue")])]
      = .error .keyError :=
  ⟨rfl, rfl, rfl⟩

/-- C2 (amended): provided every matching tag's mapped style name has an
entry in the style table, `get_style` returns the entry named by the last
matching tag (last match overwrites earlier matches), and the empty style
when no tag matches. -/
theorem C2_get_style_last_match
    (element : List (String × String)) (tag_styles : Dict (Dict String))
    (styles : Dict Style)
    (H : ∀ n ∈ matchNames tag_styles element, (dictLookup styles n).isSome) :
    (matchNames tag_styles element = [] →
      get_style element tag_styles styles = .ok []) ∧
    (∀ n s, (matchNames tag_styles element).getLast? = some n →
      dictLookup styles n = some s →
      get_style element tag_styles styles = .ok s) := by
  constructor
  · intro hnone
    rw [get_style, go_last_match tag_styles styles element [] H, hnone]
    rfl
  · intro n s hlast hs
    rw [get_style, go_last_match tag_styles styles element [] H, hlast]
    simp [hs]

/-- Witness for C2 (amended): a feature tagged `natural=water` then
`waterway=stream` where both tags match; the last one, mapped to
`stream_style`, wins. -/
theorem C2_witness :
    (matchNames [("natural", [("water", "lake")]), ("waterway", [("stream", "stream_style")])]
        [("natural", "water"), ("waterway", "stream")]).getLast? = some "stream_style" ∧
    get_style [("natural", "water"), ("waterway", "stream")]
        [("natural", [("water", "lake")]), ("waterway", [("stream", "stream_style")])]
        [("lake", [("color", "blue")]), ("stream_style", [("color", "cyan")])]
      = .ok [("color", "cyan")] :=
  ⟨rfl,
    (C2_get_style_last_match
        [("natural", "water"), ("waterway", "stream")]
        [("natural", [("water", "lake")]), ("waterway", [("stream", "stream_style")])]
        [("lake", [("color", "blue")]), ("stream_style", [("color", "cyan")])]
        (by decide)).2
      "stream_style" [("color", "cyan")] rfl rfl⟩

/-- C10 counterexample: a tag matches and its mapped name `s` is present
in the style table, but the entry is itself the empty mapping, so the
empty style is returned even though a tag matched — the claim's "empty
style only when no tag matches" fails. -/
theorem C10_counterexample :
    get_style [("a", "x")] [("a", [("x", "s")])] [("s", [])] = .ok [] ∧
    matchNames [("a", [("x", "s")])] [("a", "x")] = ["s"] :=
  ⟨rfl, rfl⟩

/-- C10 (amended): when some matching tag's mapped style name is absent
from the style table, `get_style` raises `KeyError` rather than returning
the default; and the empty style is returned only when no tag matches or
the last matching tag's entry is itself empty. -/
theorem C10_get_style_keyError
    (element : List (String × String)) (tag_styles : Dict (Dict String))
    (styles : Dict Style) :
    ((∃ kv ∈ element, ∃ n, tagStyleName tag_styles kv = some n ∧
        dictLookup styles n = none) →
      get_style element tag_styles styles = .error .keyError) ∧
    (get_style element tag_styles styles = .ok [] →
      matchNames tag_styles element = [] ∨
      ∃ n, (matchNames tag_styles element).getLast? = some n ∧
        dictLookup styles n = some []) := by
  constructor
  · intro hbad
    exact go_keyError tag_styles styles element [] hbad
  · intro hok
    rcases go_ok_characterization tag_styles styles element [] [] hok with ⟨h1, -⟩ | hright
    · exact Or.inl h1
    · exact Or.inr hright

/-- Witness for C10, applying it where the matching tag's name `s` is
missing from the style table (first clause), and where the style returned
is empty because the matched entry is empty (second clause). -/
theorem C10_witness :
    get_style [("a", "x")] [("a", [("x", "s")])] [] = .error .keyError ∧
    (matchNames [("a", [("x", "s")])] [("a", "x")] = [] ∨
      ∃ n, (matchNames [("a", [("x", "s")])] [("a", "x")]).getLast? = some n ∧
        dictLookup [("s", ([] : Style))] n = some []) :=
  ⟨(C10_get_style_keyError [("a", "x")] [("a", [("x", "s")])] []).1
      ⟨("a", "x"), List.mem_cons_self _ _, "s", rfl, rfl⟩,
    (C10_get_style_keyError [("a", "x")] [("a", [("x", "s")])] [("s", [])]).2 rfl⟩

/-- C9: for longitudes in `[-180, 180]` and latitudes in `(-85, 85)`,
`xy_to_lonlat` inverts `lonlat_to_xy` exactly: projecting a geographic
point to the plane and back returns the original point. -/
theorem C9_lonlat_roundtrip (lon lat : ℝ)
    (hlon1 : -180 ≤ lon) (hlon2 : lon ≤ 180) (hlat1 : -85 < lat) (hlat2 : lat < 85) :
    xy_to_lonlat (lonlat_to_xy lon lat).1 (lonlat_to_xy lon lat).2 = (lon, lat) := by
  have hπ : 0 < Real.pi := Real.pi_pos
  have hπ0 : Real.pi ≠ 0 := ne_of_gt hπ
  have hR : webMercatorRadius ≠ 0 := by norm_num [webMercatorRadius]
  have hsum : (0 : ℝ) < lat + 90 := by linarith
  have hdiff : (0 : ℝ) < 90 - lat := by linarith
  have harg1 : 0 < Real.pi / 4 + lat * Real.pi / 360 := by
    have := mul_pos hπ hsum
    nlinarith
  have harg2 : Real.pi / 4 + lat * Real.pi / 360 < Real.pi / 2 := by
    have := mul_pos hπ hdiff
    nlinarith
  have htan : 0 < Real.tan (Real.pi / 4 + lat * Real.pi / 360) :=
    Real.tan_pos_of_pos_of_lt_pi_div_two harg1 harg2
  show xy_to_lonlat (webMercatorRadius * (lon * Real.pi / 180))
      (webMercatorRadius * Real.log (Real.tan (Real.pi / 4 + lat * Real.pi / 360)))
      = (lon, lat)
  rw [xy_to_lonlat]
  simp only [Prod.mk.injEq]
  constructor
  · field_simp
    ring
  · rw [mul_div_cancel_left₀ _ hR, Real.exp_log htan,
      Real.arctan_tan (by linarith) harg2]
    field_simp
    ring

/-- Witness for C9 at the origin `(0, 0)`. -/
theorem C9_witness :
    ((-180 : ℝ) ≤ 0 ∧ (0 : ℝ) ≤ 180 ∧ (-85 : ℝ) < 0 ∧ (0 : ℝ) < 85) ∧
    xy_to_lonlat (lonlat_to_xy 0 0).1 (lonlat_to_xy 0 0).2 = (0, 0) :=
  ⟨⟨by norm_num, by norm_num, by norm_num, by norm_num⟩,
    C9_lonlat_roundtrip 0 0 (by norm_num) (by norm_num) (by norm_num) (by norm_num)⟩

end CanoeMapping
